import Mathlib

/-!
Shallow embedding of `drivers/soc/qcom/hyp_core_ctl.c`, the Qualcomm
hypervisor core-control driver: it reserves a configured set of CPUs for a
hypervisor partition by isolating them from the scheduler, keeping the
reservation consistent with CPU hotplug.

CPU masks (`cpumask_t`) are modelled as `Finset ℕ` of CPU ids.  The fallible
external isolation primitives `sched_isolate_cpu` / `sched_unisolate_cpu` are
modelled by success oracles `isolOk`, `unisolOk : ℕ → Bool`; the live online
status (`cpu_online`) by `online : ℕ → Bool`.  Each operation additionally
returns the list of isolation-primitive calls it performed, so that claims
about which primitives are invoked can be stated.
-/

namespace HypCoreCtl

/-- A call to the external scheduler isolation primitive:
`sched_isolate_cpu` or `sched_unisolate_cpu` on a given CPU. -/
inductive SchedCall where
  | isolate (cpu : ℕ)
  | unisolate (cpu : ℕ)
deriving DecidableEq

/-- The driver state `struct hyp_core_ctl_data`.  The spinlock and the
task pointer carry no data relevant to the claims; the remaining fields are
embedded directly.  `kzalloc` zero-initialises every field, so the initial
state has `pending = false`, `reservation_enabled = false` and empty masks,
with `reserve_cpus` then filled from configuration. -/
structure HypCoreCtlData where
  pending : Bool
  reservation_enabled : Bool
  reserve_cpus : Finset ℕ
  our_isolated_cpus : Finset ℕ
  final_reserved_cpus : Finset ℕ
deriving DecidableEq

/-- The `for_each_cpu` iteration order over a cpumask: `cpumask_next` scans
CPU ids upward from 0, so the loop visits exactly the set bits in
ascending order.  Enumerated as the ascending range up to the largest set bit,
filtered by membership. -/
def ascList (s : Finset ℕ) : List ℕ :=
  (List.range (s.sup id + 1)).filter (fun c => decide (c ∈ s))

/-- The `for_each_cpu` loop body of `hyp_core_ctl_undo_reservation`: for each
CPU of the iteration list, `sched_unisolate_cpu(cpu)` is called; on success
(`ret >= 0`) the CPU is cleared from `our_isolated_cpus`, on failure the loop
continues with the mask unchanged.  Returns the updated mask and the calls
made, in iteration order. -/
def undoLoop (unisolOk : ℕ → Bool) : List ℕ → Finset ℕ → Finset ℕ × List SchedCall
  | [], isolated => (isolated, [])
  | cpu :: rest, isolated =>
    let r :=
      if unisolOk cpu then undoLoop unisolOk rest (isolated.erase cpu)
      else undoLoop unisolOk rest isolated
    (r.1, SchedCall.unisolate cpu :: r.2)

/-- `hyp_core_ctl_undo_reservation`: un-isolate every CPU in
`our_isolated_cpus`, clearing each from the mask when the call succeeds.
`for_each_cpu` visits CPUs in ascending id order; clearing the current bit
does not affect the remaining iteration, so iterating the sorted snapshot is
faithful. -/
def hyp_core_ctl_undo_reservation (unisolOk : ℕ → Bool) (hcd : HypCoreCtlData) :
    HypCoreCtlData × List SchedCall :=
  let r := undoLoop unisolOk (ascList hcd.our_isolated_cpus) hcd.our_isolated_cpus
  ({ hcd with our_isolated_cpus := r.1 }, r.2)

/-- `finalize_reservation`: publish `temp` as `final_reserved_cpus`, returning
early when it is unchanged. -/
def finalize_reservation (hcd : HypCoreCtlData) (temp : Finset ℕ) : HypCoreCtlData :=
  if temp = hcd.final_reserved_cpus then hcd
  else { hcd with final_reserved_cpus := temp }

/-- The `for_each_cpu` loop body of `hyp_core_ctl_do_reservation` over
`iter_cpus`: an offline CPU is recorded in `offline_cpus`; an online CPU gets
`sched_isolate_cpu(i)`, which on success sets it in `our_isolated_cpus` and on
failure leaves the state untouched and continues.  Returns the updated
`our_isolated_cpus`, the accumulated `offline_cpus`, and the isolate calls
made, in iteration order. -/
def doResLoop (online isolOk : ℕ → Bool) :
    List ℕ → Finset ℕ → Finset ℕ → Finset ℕ × Finset ℕ × List SchedCall
  | [], isolated, offline => (isolated, offline, [])
  | i :: rest, isolated, offline =>
    if !online i then doResLoop online isolOk rest isolated (insert i offline)
    else
      let r :=
        if isolOk i then doResLoop online isolOk rest (insert i isolated) offline
        else doResLoop online isolOk rest isolated offline
      (r.1, r.2.1, SchedCall.isolate i :: r.2.2)

/-- `hyp_core_ctl_do_reservation`: iterate
`iter_cpus = reserve_cpus &~ our_isolated_cpus`, isolating online CPUs and
collecting offline ones, then finalize
`temp_reserved_cpus = our_isolated_cpus | offline_cpus`. -/
def hyp_core_ctl_do_reservation (online isolOk : ℕ → Bool) (hcd : HypCoreCtlData) :
    HypCoreCtlData × List SchedCall :=
  let iter_cpus := hcd.reserve_cpus \ hcd.our_isolated_cpus
  let r := doResLoop online isolOk (ascList iter_cpus) hcd.our_isolated_cpus ∅
  let temp_reserved_cpus := r.1 ∪ r.2.1
  (finalize_reservation { hcd with our_isolated_cpus := r.1 } temp_reserved_cpus, r.2.2)

/-- `hyp_core_ctl_hp_offline`: the hotplug dead callback.  When reservation is
not enabled it does nothing (the `!the_hcd` null guard belongs to the
registration lifecycle: the callback is only installed after `the_hcd` is
set).  Otherwise `cpumask_test_and_clear_cpu` removes the CPU from
`our_isolated_cpus` and, when it was set, `sched_unisolate_cpu_unlocked` is
called (its return value is ignored). -/
def hyp_core_ctl_hp_offline (cpu : ℕ) (hcd : HypCoreCtlData) :
    HypCoreCtlData × List SchedCall :=
  if !hcd.reservation_enabled then (hcd, [])
  else if cpu ∈ hcd.our_isolated_cpus then
    ({ hcd with our_isolated_cpus := hcd.our_isolated_cpus.erase cpu },
      [SchedCall.unisolate cpu])
  else (hcd, [])

/-- `hyp_core_ctl_hp_online`: the hotplug online callback.  When reservation
is enabled and the CPU is in `final_reserved_cpus`, set `pending` and wake the
state-machine thread (the returned Bool records whether `wake_up_process` was
called). -/
def hyp_core_ctl_hp_online (cpu : ℕ) (hcd : HypCoreCtlData) :
    HypCoreCtlData × Bool :=
  if !hcd.reservation_enabled then (hcd, false)
  else if cpu ∈ hcd.final_reserved_cpus then ({ hcd with pending := true }, true)
  else (hcd, false)

/-- `hyp_core_ctl_enable`: under the lock, a toggle to the current value is a
no-op; otherwise it stores the new value, sets `pending` and wakes the thread
(the returned Bool records whether `wake_up_process` was called). -/
def hyp_core_ctl_enable (enable : Bool) (hcd : HypCoreCtlData) :
    HypCoreCtlData × Bool :=
  if enable = hcd.reservation_enabled then (hcd, false)
  else ({ hcd with reservation_enabled := enable, pending := true }, true)

/-- Outcome of writing the sysfs `enable` attribute: success (with the
resulting state and whether the worker was woken), `-EINVAL` from
`kstrtobool`, or a dereference of a null `the_hcd`. -/
inductive StoreResult where
  | ok (hcd : HypCoreCtlData) (woke : Bool)
  | einval
  | nullDeref
deriving DecidableEq

/-- `enable_store`: `kstrtobool` failure returns `-EINVAL`; otherwise
`hyp_core_ctl_enable(enable)` is called unconditionally.  `parsed` is the
result of `kstrtobool` on the written buffer; `the_hcd` is the global pointer,
`none` when the driver has not initialised.  `hyp_core_ctl_enable` begins
with `spin_lock(&the_hcd->lock)`, so a null `the_hcd` is dereferenced. -/
def enable_store (parsed : Option Bool) (the_hcd : Option HypCoreCtlData) :
    StoreResult :=
  match parsed with
  | none => StoreResult.einval
  | some b =>
    match the_hcd with
    | none => StoreResult.nullDeref
    | some hcd =>
      let r := hyp_core_ctl_enable b hcd
      StoreResult.ok r.1 r.2

/-- Outcome of reading the sysfs `enable` attribute: the printed value, or
`-EPERM` when `the_hcd` is null. -/
inductive ShowResult where
  | ok (enabled : Bool)
  | eperm
deriving DecidableEq

/-- `enable_show`: returns `-EPERM` when `the_hcd` is null, else prints
`reservation_enabled`. -/
def enable_show (the_hcd : Option HypCoreCtlData) : ShowResult :=
  match the_hcd with
  | none => ShowResult.eperm
  | some hcd => ShowResult.ok hcd.reservation_enabled

/-- Whole-system state for reachability: the driver state together with the
live set of online CPUs (`cpu_online_mask`). -/
structure SysState where
  hcd : HypCoreCtlData
  online : Finset ℕ
deriving DecidableEq

/-- The online predicate a reservation cycle reads (`cpu_online(i)`). -/
def isOnline (s : SysState) : ℕ → Bool := fun c => decide (c ∈ s.online)

/-- The driver state right after `hyp_core_ctl_init`: `kzalloc` zeroes every
field and `cpulist_parse` fills `reserve_cpus`. -/
def initHcd (rs : Finset ℕ) : HypCoreCtlData :=
  { pending := false
    reservation_enabled := false
    reserve_cpus := rs
    our_isolated_cpus := ∅
    final_reserved_cpus := ∅ }

/-- One observable transition of the system.  The state-machine thread runs
`hyp_core_ctl_do_reservation` when `reservation_enabled` and
`hyp_core_ctl_undo_reservation` otherwise, so the engine steps are guarded by
the flag; hotplug events update the online set and run the corresponding
callback; the toggle runs `hyp_core_ctl_enable`.  Each engine invocation
reads the live online status and fresh success oracles. -/
inductive Step : SysState → SysState → Prop where
  | applyRes (isolOk : ℕ → Bool) (s : SysState)
      (h : s.hcd.reservation_enabled = true) :
      Step s ⟨(hyp_core_ctl_do_reservation (isOnline s) isolOk s.hcd).1, s.online⟩
  | revertRes (unisolOk : ℕ → Bool) (s : SysState)
      (h : s.hcd.reservation_enabled = false) :
      Step s ⟨(hyp_core_ctl_undo_reservation unisolOk s.hcd).1, s.online⟩
  | setEnabled (b : Bool) (s : SysState) :
      Step s ⟨(hyp_core_ctl_enable b s.hcd).1, s.online⟩
  | cpuOffline (cpu : ℕ) (s : SysState) (h : cpu ∈ s.online) :
      Step s ⟨(hyp_core_ctl_hp_offline cpu s.hcd).1, s.online.erase cpu⟩
  | cpuOnline (cpu : ℕ) (s : SysState) :
      Step s ⟨(hyp_core_ctl_hp_online cpu s.hcd).1, insert cpu s.online⟩

/-- States reachable from the initial state with reserve set `rs` and initial
online set `onl`. -/
inductive Reachable (rs onl : Finset ℕ) : SysState → Prop where
  | init : Reachable rs onl ⟨initHcd rs, onl⟩
  | step {s t : SysState} : Reachable rs onl s → Step s t → Reachable rs onl t

/-- A concrete enabled state with `reserve_cpus = {2, 3}` and nothing yet
isolated, used to instantiate general theorems. -/
def exampleHcd : HypCoreCtlData :=
  { pending := false
    reservation_enabled := true
    reserve_cpus := {2, 3}
    our_isolated_cpus := ∅
    final_reserved_cpus := ∅ }

/-- A concrete enabled state where CPU 2 is isolated by us. -/
def exampleHcdIso : HypCoreCtlData :=
  { pending := false
    reservation_enabled := true
    reserve_cpus := {2, 3}
    our_isolated_cpus := {2}
    final_reserved_cpus := {2, 3} }

/-- The state `exampleHcdIso` with reservation disabled. -/
def exampleHcdIsoOff : HypCoreCtlData :=
  { pending := false
    reservation_enabled := false
    reserve_cpus := {2, 3}
    our_isolated_cpus := {2}
    final_reserved_cpus := {2, 3} }

/-- The spec's reversion scenario state: reservation disabled while CPUs 2
and 3 are isolated by us. -/
def exampleHcdIsoTwo : HypCoreCtlData :=
  { pending := false
    reservation_enabled := false
    reserve_cpus := {2, 3}
    our_isolated_cpus := {2, 3}
    final_reserved_cpus := {2, 3} }

/-- A concrete enabled state with `reserve_cpus = {2}`. -/
def exampleHcdOne : HypCoreCtlData :=
  { pending := false
    reservation_enabled := true
    reserve_cpus := {2}
    our_isolated_cpus := ∅
    final_reserved_cpus := ∅ }

/-- The system state reached by: init with `reserve_cpus = {2}` and CPU 2
online, enable, one reservation cycle (isolation succeeding), disable, one
reversion cycle (un-isolation succeeding). -/
def revertedState : SysState :=
  ⟨{ pending := true
     reservation_enabled := false
     reserve_cpus := {2}
     our_isolated_cpus := ∅
     final_reserved_cpus := {2} }, {2}⟩

/-! ### Characterization of the two engine loops -/

theorem undoLoop_fst (unisolOk : ℕ → Bool) (l : List ℕ) :
    ∀ iso : Finset ℕ,
      (undoLoop unisolOk l iso).1 = iso \ (l.filter unisolOk).toFinset := by
  induction l with
  | nil => intro iso; simp [undoLoop]
  | cons cpu rest ih =>
    intro iso
    by_cases h : unisolOk cpu
    · rw [show (undoLoop unisolOk (cpu :: rest) iso).1
          = (undoLoop unisolOk rest (iso.erase cpu)).1 by simp [undoLoop, h]]
      rw [ih]
      ext a
      simp only [Finset.mem_sdiff, Finset.mem_erase, List.toFinset_filter,
        List.toFinset_cons, Finset.mem_filter, Finset.mem_insert, List.mem_toFinset]
      constructor
      · rintro ⟨⟨hne, ha⟩, hnf⟩
        exact ⟨ha, fun hor => by rcases hor.1 with rfl | hmem
                                 · exact hne rfl
                                 · exact hnf ⟨hmem, hor.2⟩⟩
      · rintro ⟨ha, hnf⟩
        refine ⟨⟨fun hae => hnf ⟨Or.inl hae, hae ▸ h⟩, ha⟩, fun hf => hnf ⟨Or.inr hf.1, hf.2⟩⟩
    · rw [show (undoLoop unisolOk (cpu :: rest) iso).1
          = (undoLoop unisolOk rest iso).1 by simp [undoLoop, h]]
      rw [ih]
      congr 1
      simp [List.filter_cons, h]

theorem undoLoop_snd (unisolOk : ℕ → Bool) (l : List ℕ) :
    ∀ iso : Finset ℕ,
      (undoLoop unisolOk l iso).2 = l.map SchedCall.unisolate := by
  induction l with
  | nil => intro iso; simp [undoLoop]
  | cons cpu rest ih =>
    intro iso
    by_cases h : unisolOk cpu <;> simp [undoLoop, h, ih]

theorem doResLoop_isolated (online isolOk : ℕ → Bool) (l : List ℕ) :
    ∀ iso off : Finset ℕ,
      (doResLoop online isolOk l iso off).1
        = iso ∪ (l.filter (fun i => online i && isolOk i)).toFinset := by
  induction l with
  | nil => intro iso off; simp [doResLoop]
  | cons i rest ih =>
    intro iso off
    by_cases ho : online i
    · by_cases hk : isolOk i
      · rw [show (doResLoop online isolOk (i :: rest) iso off).1
            = (doResLoop online isolOk rest (insert i iso) off).1 by
              simp [doResLoop, ho, hk]]
        rw [ih]
        rw [List.filter_cons_of_pos (by simp [ho, hk])]
        simp [Finset.insert_union, Finset.union_insert]
      · rw [show (doResLoop online isolOk (i :: rest) iso off).1
            = (doResLoop online isolOk rest iso off).1 by simp [doResLoop, ho, hk]]
        rw [ih, List.filter_cons_of_neg (by simp [hk])]
    · rw [show (doResLoop online isolOk (i :: rest) iso off).1
          = (doResLoop online isolOk rest iso (insert i off)).1 by simp [doResLoop, ho]]
      rw [ih, List.filter_cons_of_neg (by simp [ho])]

theorem doResLoop_offline (online isolOk : ℕ → Bool) (l : List ℕ) :
    ∀ iso off : Finset ℕ,
      (doResLoop online isolOk l iso off).2.1
        = off ∪ (l.filter (fun i => !online i)).toFinset := by
  induction l with
  | nil => intro iso off; simp [doResLoop]
  | cons i rest ih =>
    intro iso off
    by_cases ho : online i
    · have hcalls : (doResLoop online isolOk (i :: rest) iso off).2.1
          = (if isolOk i then doResLoop online isolOk rest (insert i iso) off
             else doResLoop online isolOk rest iso off).2.1 := by
        simp [doResLoop, ho]
      rw [hcalls]
      have hf : List.filter (fun j => !online j) (i :: rest)
          = List.filter (fun j => !online j) rest :=
        List.filter_cons_of_neg (by simp [ho])
      by_cases hk : isolOk i
      · rw [if_pos hk, ih, hf]
      · rw [if_neg hk, ih, hf]
    · rw [show (doResLoop online isolOk (i :: rest) iso off).2.1
          = (doResLoop online isolOk rest iso (insert i off)).2.1 by
            simp [doResLoop, ho]]
      rw [ih, List.filter_cons_of_pos (by simp [ho])]
      simp [Finset.insert_union, Finset.union_insert]

theorem doResLoop_calls (online isolOk : ℕ → Bool) (l : List ℕ) :
    ∀ iso off : Finset ℕ,
      (doResLoop online isolOk l iso off).2.2
        = (l.filter (fun i => online i)).map SchedCall.isolate := by
  induction l with
  | nil => intro iso off; simp [doResLoop]
  | cons i rest ih =>
    intro iso off
    by_cases ho : online i
    · have hsplit : (doResLoop online isolOk (i :: rest) iso off).2.2
          = SchedCall.isolate i
              :: (if isolOk i then doResLoop online isolOk rest (insert i iso) off
                  else doResLoop online isolOk rest iso off).2.2 := by
        simp [doResLoop, ho]
      rw [hsplit, List.filter_cons_of_pos (by simp [ho])]
      by_cases hk : isolOk i <;> simp [hk, ih]
    · rw [show (doResLoop online isolOk (i :: rest) iso off).2.2
          = (doResLoop online isolOk rest iso (insert i off)).2.2 by
            simp [doResLoop, ho]]
      rw [ih, List.filter_cons_of_neg (by simp [ho])]

/-! ### Field-level characterization of the operations -/

theorem mem_ascList (s : Finset ℕ) (a : ℕ) : a ∈ ascList s ↔ a ∈ s := by
  unfold ascList
  simp only [List.mem_filter, List.mem_range, decide_eq_true_eq]
  constructor
  · exact fun h => h.2
  · intro h
    have hle : id a ≤ s.sup id := Finset.le_sup h
    exact ⟨Nat.lt_succ_of_le hle, h⟩

theorem ascList_toFinset (s : Finset ℕ) : (ascList s).toFinset = s := by
  ext a
  rw [List.mem_toFinset, mem_ascList]

theorem eq_of_fields {a b : HypCoreCtlData}
    (h1 : a.pending = b.pending)
    (h2 : a.reservation_enabled = b.reservation_enabled)
    (h3 : a.reserve_cpus = b.reserve_cpus)
    (h4 : a.our_isolated_cpus = b.our_isolated_cpus)
    (h5 : a.final_reserved_cpus = b.final_reserved_cpus) : a = b := by
  cases a; cases b; simp_all

theorem undo_reservation_isolated (unisolOk : ℕ → Bool) (hcd : HypCoreCtlData) :
    (hyp_core_ctl_undo_reservation unisolOk hcd).1.our_isolated_cpus
      = hcd.our_isolated_cpus.filter (fun c => unisolOk c = false) := by
  unfold hyp_core_ctl_undo_reservation
  simp only [undoLoop_fst, List.toFinset_filter, ascList_toFinset]
  ext a
  by_cases hok : unisolOk a <;> simp [hok]

theorem undo_reservation_pending (unisolOk : ℕ → Bool) (hcd : HypCoreCtlData) :
    (hyp_core_ctl_undo_reservation unisolOk hcd).1.pending = hcd.pending := rfl

theorem undo_reservation_enabled (unisolOk : ℕ → Bool) (hcd : HypCoreCtlData) :
    (hyp_core_ctl_undo_reservation unisolOk hcd).1.reservation_enabled
      = hcd.reservation_enabled := rfl

theorem undo_reservation_reserve (unisolOk : ℕ → Bool) (hcd : HypCoreCtlData) :
    (hyp_core_ctl_undo_reservation unisolOk hcd).1.reserve_cpus
      = hcd.reserve_cpus := rfl

theorem undo_reservation_final (unisolOk : ℕ → Bool) (hcd : HypCoreCtlData) :
    (hyp_core_ctl_undo_reservation unisolOk hcd).1.final_reserved_cpus
      = hcd.final_reserved_cpus := rfl

theorem undo_reservation_calls (unisolOk : ℕ → Bool) (hcd : HypCoreCtlData) :
    (hyp_core_ctl_undo_reservation unisolOk hcd).2
      = (ascList hcd.our_isolated_cpus).map SchedCall.unisolate :=
  undoLoop_snd unisolOk _ _

theorem mem_undo_reservation_calls (unisolOk : ℕ → Bool) (hcd : HypCoreCtlData)
    (c : ℕ) :
    SchedCall.unisolate c ∈ (hyp_core_ctl_undo_reservation unisolOk hcd).2
      ↔ c ∈ hcd.our_isolated_cpus := by
  rw [undo_reservation_calls]
  simp [List.mem_map, mem_ascList]

theorem finalize_reservation_final (hcd : HypCoreCtlData) (temp : Finset ℕ) :
    (finalize_reservation hcd temp).final_reserved_cpus = temp := by
  unfold finalize_reservation
  by_cases h : temp = hcd.final_reserved_cpus
  · rw [if_pos h]; exact h.symm
  · rw [if_neg h]

theorem finalize_reservation_our (hcd : HypCoreCtlData) (temp : Finset ℕ) :
    (finalize_reservation hcd temp).our_isolated_cpus = hcd.our_isolated_cpus := by
  unfold finalize_reservation
  split <;> rfl

theorem finalize_reservation_pending (hcd : HypCoreCtlData) (temp : Finset ℕ) :
    (finalize_reservation hcd temp).pending = hcd.pending := by
  unfold finalize_reservation
  split <;> rfl

theorem finalize_reservation_enabled (hcd : HypCoreCtlData) (temp : Finset ℕ) :
    (finalize_reservation hcd temp).reservation_enabled = hcd.reservation_enabled := by
  unfold finalize_reservation
  split <;> rfl

theorem finalize_reservation_reserve (hcd : HypCoreCtlData) (temp : Finset ℕ) :
    (finalize_reservation hcd temp).reserve_cpus = hcd.reserve_cpus := by
  unfold finalize_reservation
  split <;> rfl

theorem do_reservation_isolated (online isolOk : ℕ → Bool) (hcd : HypCoreCtlData) :
    (hyp_core_ctl_do_reservation online isolOk hcd).1.our_isolated_cpus
      = hcd.our_isolated_cpus ∪
          (hcd.reserve_cpus \ hcd.our_isolated_cpus).filter
            (fun c => online c && isolOk c) := by
  unfold hyp_core_ctl_do_reservation
  simp only [finalize_reservation_our, doResLoop_isolated, List.toFinset_filter,
    ascList_toFinset]

theorem do_reservation_final (online isolOk : ℕ → Bool) (hcd : HypCoreCtlData) :
    (hyp_core_ctl_do_reservation online isolOk hcd).1.final_reserved_cpus
      = (hyp_core_ctl_do_reservation online isolOk hcd).1.our_isolated_cpus
          ∪ (hcd.reserve_cpus \ hcd.our_isolated_cpus).filter (fun c => !online c) := by
  unfold hyp_core_ctl_do_reservation
  simp only [finalize_reservation_final, finalize_reservation_our,
    doResLoop_offline, List.toFinset_filter, ascList_toFinset,
    Finset.empty_union]

theorem do_reservation_pending (online isolOk : ℕ → Bool) (hcd : HypCoreCtlData) :
    (hyp_core_ctl_do_reservation online isolOk hcd).1.pending = hcd.pending := by
  unfold hyp_core_ctl_do_reservation
  simp only [finalize_reservation_pending]

theorem do_reservation_enabled (online isolOk : ℕ → Bool) (hcd : HypCoreCtlData) :
    (hyp_core_ctl_do_reservation online isolOk hcd).1.reservation_enabled
      = hcd.reservation_enabled := by
  unfold hyp_core_ctl_do_reservation
  simp only [finalize_reservation_enabled]

theorem do_reservation_reserve (online isolOk : ℕ → Bool) (hcd : HypCoreCtlData) :
    (hyp_core_ctl_do_reservation online isolOk hcd).1.reserve_cpus
      = hcd.reserve_cpus := by
  unfold hyp_core_ctl_do_reservation
  simp only [finalize_reservation_reserve]

theorem do_reservation_calls (online isolOk : ℕ → Bool) (hcd : HypCoreCtlData) :
    (hyp_core_ctl_do_reservation online isolOk hcd).2
      = ((ascList (hcd.reserve_cpus \ hcd.our_isolated_cpus)).filter
          (fun i => online i)).map SchedCall.isolate :=
  doResLoop_calls online isolOk _ _ _

theorem mem_do_reservation_calls (online isolOk : ℕ → Bool) (hcd : HypCoreCtlData)
    (d : ℕ) :
    SchedCall.isolate d ∈ (hyp_core_ctl_do_reservation online isolOk hcd).2
      ↔ d ∈ hcd.reserve_cpus \ hcd.our_isolated_cpus ∧ online d = true := by
  rw [do_reservation_calls]
  simp [List.mem_map, List.mem_filter, mem_ascList]

theorem do_reservation_final_reserve (online isolOk : ℕ → Bool)
    (hcd : HypCoreCtlData) :
    (hyp_core_ctl_do_reservation online isolOk hcd).1.final_reserved_cpus
      = (hyp_core_ctl_do_reservation online isolOk hcd).1.our_isolated_cpus
          ∪ hcd.reserve_cpus.filter (fun c => !online c) := by
  rw [do_reservation_final, do_reservation_isolated]
  ext a
  simp only [Finset.mem_union, Finset.mem_filter, Finset.mem_sdiff]
  by_cases honl : online a <;> by_cases hres : a ∈ hcd.reserve_cpus <;>
    by_cases hiso : a ∈ hcd.our_isolated_cpus <;> simp [honl, hres, hiso]

theorem hp_offline_final (cpu : ℕ) (hcd : HypCoreCtlData) :
    (hyp_core_ctl_hp_offline cpu hcd).1.final_reserved_cpus
      = hcd.final_reserved_cpus := by
  unfold hyp_core_ctl_hp_offline
  split
  · rfl
  · split <;> rfl

theorem hp_offline_reserve (cpu : ℕ) (hcd : HypCoreCtlData) :
    (hyp_core_ctl_hp_offline cpu hcd).1.reserve_cpus = hcd.reserve_cpus := by
  unfold hyp_core_ctl_hp_offline
  split
  · rfl
  · split <;> rfl

theorem hp_offline_pending (cpu : ℕ) (hcd : HypCoreCtlData) :
    (hyp_core_ctl_hp_offline cpu hcd).1.pending = hcd.pending := by
  unfold hyp_core_ctl_hp_offline
  split
  · rfl
  · split <;> rfl

theorem hp_offline_enabled (cpu : ℕ) (hcd : HypCoreCtlData) :
    (hyp_core_ctl_hp_offline cpu hcd).1.reservation_enabled
      = hcd.reservation_enabled := by
  unfold hyp_core_ctl_hp_offline
  split
  · rfl
  · split <;> rfl

theorem hp_offline_isolated_subset (cpu : ℕ) (hcd : HypCoreCtlData) :
    (hyp_core_ctl_hp_offline cpu hcd).1.our_isolated_cpus
      ⊆ hcd.our_isolated_cpus := by
  unfold hyp_core_ctl_hp_offline
  split
  · exact Finset.Subset.refl _
  · split
    · exact Finset.erase_subset _ _
    · exact Finset.Subset.refl _

theorem hp_online_final (cpu : ℕ) (hcd : HypCoreCtlData) :
    (hyp_core_ctl_hp_online cpu hcd).1.final_reserved_cpus
      = hcd.final_reserved_cpus := by
  unfold hyp_core_ctl_hp_online
  split
  · rfl
  · split <;> rfl

theorem hp_online_reserve (cpu : ℕ) (hcd : HypCoreCtlData) :
    (hyp_core_ctl_hp_online cpu hcd).1.reserve_cpus = hcd.reserve_cpus := by
  unfold hyp_core_ctl_hp_online
  split
  · rfl
  · split <;> rfl

theorem hp_online_isolated (cpu : ℕ) (hcd : HypCoreCtlData) :
    (hyp_core_ctl_hp_online cpu hcd).1.our_isolated_cpus
      = hcd.our_isolated_cpus := by
  unfold hyp_core_ctl_hp_online
  split
  · rfl
  · split <;> rfl

theorem enable_reserve (b : Bool) (hcd : HypCoreCtlData) :
    (hyp_core_ctl_enable b hcd).1.reserve_cpus = hcd.reserve_cpus := by
  unfold hyp_core_ctl_enable
  split <;> rfl

theorem enable_isolated (b : Bool) (hcd : HypCoreCtlData) :
    (hyp_core_ctl_enable b hcd).1.our_isolated_cpus = hcd.our_isolated_cpus := by
  unfold hyp_core_ctl_enable
  split <;> rfl

theorem enable_final (b : Bool) (hcd : HypCoreCtlData) :
    (hyp_core_ctl_enable b hcd).1.final_reserved_cpus
      = hcd.final_reserved_cpus := by
  unfold hyp_core_ctl_enable
  split <;> rfl

/-! ### Steps preserve the reserve set -/

theorem step_reserve {s t : SysState} (h : Step s t) :
    t.hcd.reserve_cpus = s.hcd.reserve_cpus := by
  cases h with
  | applyRes isolOk s hen => exact do_reservation_reserve _ _ _
  | revertRes unisolOk s hen => exact undo_reservation_reserve _ _
  | setEnabled b s => exact enable_reserve _ _
  | cpuOffline cpu s hon => exact hp_offline_reserve _ _
  | cpuOnline cpu s => exact hp_online_reserve _ _

/-- Transport reachability along a decidable state equality. -/
theorem reachable_of_eq {rs onl : Finset ℕ} {s t : SysState}
    (h : Reachable rs onl s) (he : s = t) : Reachable rs onl t := he ▸ h

/-! ### Claims -/

/-- C4: in every reachable state of the controller, `our_isolated_cpus` is a
subset of `reserve_cpus`: the reservation cycle only isolates CPUs drawn from
`reserve_cpus &~ our_isolated_cpus`, and every other operation only removes
CPUs from `our_isolated_cpus` or leaves it unchanged. -/
theorem c4_isolated_subset_reserve (rs onl : Finset ℕ) (s : SysState)
    (h : Reachable rs onl s) :
    s.hcd.our_isolated_cpus ⊆ s.hcd.reserve_cpus := by
  induction h with
  | init => simp [initHcd]
  | step h1 h2 ih =>
    cases h2 with
    | applyRes isolOk s1 hen =>
      rw [do_reservation_reserve]
      intro a ha
      rw [do_reservation_isolated] at ha
      rcases Finset.mem_union.1 ha with hmem | hmem
      · exact ih hmem
      · exact (Finset.mem_sdiff.1 (Finset.mem_filter.1 hmem).1).1
    | revertRes unisolOk s1 hen =>
      rw [undo_reservation_reserve, undo_reservation_isolated]
      exact (Finset.filter_subset _ _).trans ih
    | setEnabled b s1 =>
      rw [enable_reserve, enable_isolated]
      exact ih
    | cpuOffline cpu s1 hon =>
      rw [hp_offline_reserve]
      exact (hp_offline_isolated_subset _ _).trans ih
    | cpuOnline cpu s1 =>
      rw [hp_online_reserve, hp_online_isolated]
      exact ih

/-- Witness for C4: the subset relation at a concrete reachable state. -/
theorem c4_isolated_subset_reserve_witness :
    (⟨initHcd {2}, {2}⟩ : SysState).hcd.our_isolated_cpus
      ⊆ (⟨initHcd {2}, {2}⟩ : SysState).hcd.reserve_cpus :=
  c4_isolated_subset_reserve {2} {2} _ Reachable.init

/-- C7: `hyp_core_ctl_undo_reservation` calls `sched_unisolate_cpu` for
exactly the CPUs of `our_isolated_cpus`, a CPU stays in the mask exactly when
its call fails, and on the concrete scenario state with
`our_isolated_cpus = {2, 3}` and every call succeeding, unisolate is called
on 2 and on 3 and the mask becomes empty. -/
theorem c7_undo_reservation_spec (unisolOk : ℕ → Bool) (hcd : HypCoreCtlData) :
    (∀ c : ℕ,
      SchedCall.unisolate c ∈ (hyp_core_ctl_undo_reservation unisolOk hcd).2
        ↔ c ∈ hcd.our_isolated_cpus) ∧
    (∀ c : ℕ,
      c ∈ (hyp_core_ctl_undo_reservation unisolOk hcd).1.our_isolated_cpus
        ↔ c ∈ hcd.our_isolated_cpus ∧ unisolOk c = false) ∧
    (hyp_core_ctl_undo_reservation (fun _ => true) exampleHcdIsoTwo).2
        = [SchedCall.unisolate 2, SchedCall.unisolate 3] ∧
    (hyp_core_ctl_undo_reservation (fun _ => true)
        exampleHcdIsoTwo).1.our_isolated_cpus = ∅ := by
  refine ⟨fun c => mem_undo_reservation_calls unisolOk hcd c, fun c => ?_,
    by decide, by decide⟩
  rw [undo_reservation_isolated]
  simp

/-- C8: `hyp_core_ctl_enable` with the current value changes nothing and does
not wake the worker; with a different value it stores the value, sets
`pending`, and wakes the worker, leaving all masks unchanged. -/
theorem c8_enable_toggle (x : Bool) (hcd : HypCoreCtlData) :
    (x = hcd.reservation_enabled → hyp_core_ctl_enable x hcd = (hcd, false)) ∧
    (x ≠ hcd.reservation_enabled →
      hyp_core_ctl_enable x hcd
        = ({ hcd with reservation_enabled := x, pending := true }, true)) := by
  constructor
  · intro h
    unfold hyp_core_ctl_enable
    rw [if_pos h]
  · intro h
    unfold hyp_core_ctl_enable
    rw [if_neg h]

/-- Witness for C8: both toggle cases on a concrete enabled state. -/
theorem c8_enable_toggle_witness :
    hyp_core_ctl_enable true exampleHcd = (exampleHcd, false) ∧
    hyp_core_ctl_enable false exampleHcd
      = ({ exampleHcd with reservation_enabled := false, pending := true },
          true) :=
  ⟨(c8_enable_toggle true exampleHcd).1 (by decide),
   (c8_enable_toggle false exampleHcd).2 (by decide)⟩

/-- C9: `enable_store` parses the input and, on any valid boolean, invokes
`hyp_core_ctl_enable` unconditionally, which dereferences the global pointer:
a valid write with `the_hcd` null hits the null pointer instead of the
`-EPERM` that `enable_show` reports in the same situation. -/
theorem c9_enable_store_no_init_check (b : Bool) :
    enable_store (some b) none = StoreResult.nullDeref ∧
    enable_show none = ShowResult.eperm ∧
    (∀ hcd : HypCoreCtlData,
      enable_store (some b) (some hcd)
        = StoreResult.ok (hyp_core_ctl_enable b hcd).1
            (hyp_core_ctl_enable b hcd).2) ∧
    enable_store none none = StoreResult.einval :=
  ⟨rfl, rfl, fun _ => rfl, rfl⟩

/-- C10: `final_reserved_cpus` is a frame of the non-reservation paths:
`hyp_core_ctl_undo_reservation` and both hotplug callbacks return it exactly
unchanged, even when they remove CPUs from `our_isolated_cpus`. -/
theorem c10_final_reserved_frame (hcd : HypCoreCtlData) (unisolOk : ℕ → Bool)
    (cpu cpu2 : ℕ) :
    (hyp_core_ctl_undo_reservation unisolOk hcd).1.final_reserved_cpus
        = hcd.final_reserved_cpus ∧
    (hyp_core_ctl_hp_offline cpu hcd).1.final_reserved_cpus
        = hcd.final_reserved_cpus ∧
    (hyp_core_ctl_hp_online cpu2 hcd).1.final_reserved_cpus
        = hcd.final_reserved_cpus :=
  ⟨undo_reservation_final unisolOk hcd, hp_offline_final cpu hcd,
   hp_online_final cpu2 hcd⟩

/-- C3: with reservation enabled and the CPU isolated by us, the offline
callback calls unisolate once and removes the CPU from `our_isolated_cpus`
before returning; with reservation not enabled it changes no state and calls
no isolation primitive. -/
theorem c3_hp_offline_spec (cpu : ℕ) (hcd : HypCoreCtlData) :
    (hcd.reservation_enabled = true → cpu ∈ hcd.our_isolated_cpus →
      (hyp_core_ctl_hp_offline cpu hcd).2 = [SchedCall.unisolate cpu] ∧
      (hyp_core_ctl_hp_offline cpu hcd).1
        = { hcd with our_isolated_cpus := hcd.our_isolated_cpus.erase cpu } ∧
      cpu ∉ (hyp_core_ctl_hp_offline cpu hcd).1.our_isolated_cpus) ∧
    (hcd.reservation_enabled = false →
      hyp_core_ctl_hp_offline cpu hcd = (hcd, [])) := by
  constructor
  · intro hen hmem
    have hres : hyp_core_ctl_hp_offline cpu hcd
        = ({ hcd with our_isolated_cpus := hcd.our_isolated_cpus.erase cpu },
            [SchedCall.unisolate cpu]) := by
      unfold hyp_core_ctl_hp_offline
      rw [hen]
      simp [hmem]
    rw [hres]
    exact ⟨rfl, rfl, Finset.not_mem_erase _ _⟩
  · intro hen
    unfold hyp_core_ctl_hp_offline
    rw [hen]
    simp

/-- Witness for C3: both cases at CPU 2 on concrete states. -/
theorem c3_hp_offline_spec_witness :
    ((hyp_core_ctl_hp_offline 2 exampleHcdIso).2 = [SchedCall.unisolate 2] ∧
      (hyp_core_ctl_hp_offline 2 exampleHcdIso).1
        = { exampleHcdIso with
              our_isolated_cpus := exampleHcdIso.our_isolated_cpus.erase 2 } ∧
      2 ∉ (hyp_core_ctl_hp_offline 2 exampleHcdIso).1.our_isolated_cpus) ∧
    hyp_core_ctl_hp_offline 2 exampleHcdIsoOff = (exampleHcdIsoOff, []) :=
  ⟨(c3_hp_offline_spec 2 exampleHcdIso).1 (by decide) (by decide),
   (c3_hp_offline_spec 2 exampleHcdIsoOff).2 (by decide)⟩

/-- C1 is false as stated: the state reached by enable, one reservation cycle
(isolation of CPU 2 succeeding), disable, one reversion cycle (un-isolation
succeeding) has `final_reserved_cpus = {2}` while
`our_isolated_cpus ∪ {c ∈ reserve_cpus : c offline} = ∅`, because
`hyp_core_ctl_undo_reservation` never writes `final_reserved_cpus`. -/
theorem c1_invariant_counterexample :
    Reachable {2} {2} revertedState ∧
    revertedState.hcd.final_reserved_cpus
      ≠ revertedState.hcd.our_isolated_cpus
          ∪ revertedState.hcd.reserve_cpus.filter
              (fun c => c ∉ revertedState.online) := by
  constructor
  · have h0 : Reachable {2} {2} ⟨initHcd {2}, {2}⟩ := Reachable.init
    have h1 := h0.step (Step.setEnabled true _)
    have h2 := h1.step (Step.applyRes (fun _ => true) _ (by decide))
    have h3 := h2.step (Step.setEnabled false _)
    have h4 := h3.step (Step.revertRes (fun _ => true) _ (by decide))
    exact reachable_of_eq h4 (by decide)
  · decide

/-- C1 (amended): the equality `final_reserved_cpus = our_isolated_cpus ∪
{c ∈ reserve_cpus : c offline}` holds immediately after every
`hyp_core_ctl_do_reservation` invocation, for the online status that
invocation read; reversion cycles and online transitions can break it until
the next reservation cycle recomputes it. -/
theorem c1_final_after_do_reservation (online isolOk : ℕ → Bool)
    (hcd : HypCoreCtlData) :
    (hyp_core_ctl_do_reservation online isolOk hcd).1.final_reserved_cpus
      = (hyp_core_ctl_do_reservation online isolOk hcd).1.our_isolated_cpus
          ∪ hcd.reserve_cpus.filter (fun c => online c = false) := by
  rw [do_reservation_final_reserve]
  congr 1
  ext a
  by_cases h : online a <;> simp [h]

/-- C2: from a state satisfying the driver's invariants (`our_isolated_cpus ⊆
reserve_cpus`, isolated CPUs online), a single reservation cycle in which
every isolate call succeeds makes `our_isolated_cpus` exactly the online CPUs
of `reserve_cpus`, and the resulting state is a fixed point of further cycles
under the same online status. -/
theorem c2_apply_convergence (online isolOk : ℕ → Bool) (hcd : HypCoreCtlData)
    (hsub : hcd.our_isolated_cpus ⊆ hcd.reserve_cpus)
    (honl : ∀ c ∈ hcd.our_isolated_cpus, online c = true)
    (hok : ∀ c, isolOk c = true) :
    (hyp_core_ctl_do_reservation online isolOk hcd).1.our_isolated_cpus
        = hcd.reserve_cpus.filter (fun c => online c) ∧
    (hyp_core_ctl_do_reservation online isolOk
        (hyp_core_ctl_do_reservation online isolOk hcd).1).1
      = (hyp_core_ctl_do_reservation online isolOk hcd).1 := by
  have hiso1 : (hyp_core_ctl_do_reservation online isolOk hcd).1.our_isolated_cpus
      = hcd.reserve_cpus.filter (fun c => online c) := by
    rw [do_reservation_isolated]
    ext a
    simp only [Finset.mem_union, Finset.mem_filter, Finset.mem_sdiff, hok,
      Bool.and_true]
    constructor
    · rintro (ha | ⟨⟨har, hani⟩, honla⟩)
      · exact ⟨hsub ha, honl a ha⟩
      · exact ⟨har, honla⟩
    · rintro ⟨har, honla⟩
      by_cases hai : a ∈ hcd.our_isolated_cpus
      · exact Or.inl hai
      · exact Or.inr ⟨⟨har, hai⟩, honla⟩
  have hres1 : (hyp_core_ctl_do_reservation online isolOk hcd).1.reserve_cpus
      = hcd.reserve_cpus := do_reservation_reserve online isolOk hcd
  have hiso2 : (hyp_core_ctl_do_reservation online isolOk
        (hyp_core_ctl_do_reservation online isolOk hcd).1).1.our_isolated_cpus
      = (hyp_core_ctl_do_reservation online isolOk hcd).1.our_isolated_cpus := by
    rw [do_reservation_isolated, hres1, hiso1]
    ext a
    simp only [Finset.mem_union, Finset.mem_filter, Finset.mem_sdiff, hok,
      Bool.and_true]
    constructor
    · rintro (h | ⟨⟨har, hn⟩, ho⟩)
      · exact h
      · exact absurd ⟨har, ho⟩ hn
    · exact Or.inl
  refine ⟨hiso1, eq_of_fields ?_ ?_ ?_ hiso2 ?_⟩
  · exact do_reservation_pending _ _ _
  · exact do_reservation_enabled _ _ _
  · exact do_reservation_reserve _ _ _
  · rw [do_reservation_final_reserve, hiso2, hres1,
      do_reservation_final_reserve]

/-- Witness for C2 on a concrete state: `reserve_cpus = {2, 3}`, only CPU 2
online, all isolate calls succeeding. -/
theorem c2_apply_convergence_witness :
    (hyp_core_ctl_do_reservation (fun c => c == 2) (fun _ => true)
        exampleHcd).1.our_isolated_cpus
      = exampleHcd.reserve_cpus.filter (fun c => c == 2) ∧
    (hyp_core_ctl_do_reservation (fun c => c == 2) (fun _ => true)
        (hyp_core_ctl_do_reservation (fun c => c == 2) (fun _ => true)
          exampleHcd).1).1
      = (hyp_core_ctl_do_reservation (fun c => c == 2) (fun _ => true)
          exampleHcd).1 :=
  c2_apply_convergence (fun c => c == 2) (fun _ => true) exampleHcd
    (by decide) (by decide) (fun _ => rfl)

/-- C5: when `sched_isolate_cpu(c)` fails during a reservation cycle, `c` is
absent from `our_isolated_cpus` after the cycle, every online CPU of the
iteration set is still attempted in the same cycle, and a subsequent cycle
attempts `isolate(c)` again. -/
theorem c5_isolate_failure_retry (online isolOk isolOk2 : ℕ → Bool)
    (hcd : HypCoreCtlData) (c : ℕ)
    (hres : c ∈ hcd.reserve_cpus) (hni : c ∉ hcd.our_isolated_cpus)
    (honl : online c = true) (hfail : isolOk c = false) :
    c ∉ (hyp_core_ctl_do_reservation online isolOk hcd).1.our_isolated_cpus ∧
    SchedCall.isolate c ∈ (hyp_core_ctl_do_reservation online isolOk hcd).2 ∧
    (∀ d ∈ hcd.reserve_cpus \ hcd.our_isolated_cpus, online d = true →
      SchedCall.isolate d ∈ (hyp_core_ctl_do_reservation online isolOk hcd).2) ∧
    SchedCall.isolate c
      ∈ (hyp_core_ctl_do_reservation online isolOk2
          (hyp_core_ctl_do_reservation online isolOk hcd).1).2 := by
  have hnotiso : c ∉ (hyp_core_ctl_do_reservation online isolOk
      hcd).1.our_isolated_cpus := by
    rw [do_reservation_isolated]
    simp [hni, hfail]
  refine ⟨hnotiso, ?_, ?_, ?_⟩
  · exact (mem_do_reservation_calls online isolOk hcd c).2
      ⟨Finset.mem_sdiff.2 ⟨hres, hni⟩, honl⟩
  · intro d hd hond
    exact (mem_do_reservation_calls online isolOk hcd d).2 ⟨hd, hond⟩
  · refine (mem_do_reservation_calls online isolOk2 _ c).2 ⟨?_, honl⟩
    rw [do_reservation_reserve]
    exact Finset.mem_sdiff.2 ⟨hres, hnotiso⟩

/-- Witness for C5: `reserve_cpus = {2, 3}`, every CPU online, isolation
failing everywhere, at CPU 2. -/
theorem c5_isolate_failure_retry_witness :
    2 ∉ (hyp_core_ctl_do_reservation (fun _ => true) (fun _ => false)
        exampleHcd).1.our_isolated_cpus ∧
    SchedCall.isolate 2
      ∈ (hyp_core_ctl_do_reservation (fun _ => true) (fun _ => false)
          exampleHcd).2 ∧
    (∀ d ∈ exampleHcd.reserve_cpus \ exampleHcd.our_isolated_cpus,
      (fun _ : ℕ => true) d = true →
      SchedCall.isolate d
        ∈ (hyp_core_ctl_do_reservation (fun _ => true) (fun _ => false)
            exampleHcd).2) ∧
    SchedCall.isolate 2
      ∈ (hyp_core_ctl_do_reservation (fun _ => true) (fun _ => false)
          (hyp_core_ctl_do_reservation (fun _ => true) (fun _ => false)
            exampleHcd).1).2 :=
  c5_isolate_failure_retry (fun _ => true) (fun _ => false) (fun _ => false)
    exampleHcd 2 (by decide) (by decide) rfl rfl

/-- C6 is false as stated: with `reserve_cpus = {2}`, CPU 2 online and
`sched_isolate_cpu` always failing, the first cycle leaves the state exactly
unchanged (so nothing intervenes between the cycles), yet the second cycle
performs another isolate call instead of none. -/
theorem c6_idempotence_counterexample :
    (hyp_core_ctl_do_reservation (fun _ => true) (fun _ => false)
        exampleHcdOne).1 = exampleHcdOne ∧
    (hyp_core_ctl_do_reservation (fun _ => true) (fun _ => false)
        exampleHcdOne).2 = [SchedCall.isolate 2] ∧
    (hyp_core_ctl_do_reservation (fun _ => true) (fun _ => false)
        (hyp_core_ctl_do_reservation (fun _ => true) (fun _ => false)
          exampleHcdOne).1).2 = [SchedCall.isolate 2] := by
  decide

/-- C6 (amended): when every isolate call of the first cycle succeeds,
running `hyp_core_ctl_do_reservation` again with the same online status
performs no isolate or unisolate call and leaves `our_isolated_cpus` and
`final_reserved_cpus` (indeed the whole state) unchanged. -/
theorem c6_idempotent_after_success (online isolOk : ℕ → Bool)
    (hcd : HypCoreCtlData) (hok : ∀ c, isolOk c = true) :
    (hyp_core_ctl_do_reservation online isolOk
        (hyp_core_ctl_do_reservation online isolOk hcd).1).2 = [] ∧
    (hyp_core_ctl_do_reservation online isolOk
        (hyp_core_ctl_do_reservation online isolOk hcd).1).1
      = (hyp_core_ctl_do_reservation online isolOk hcd).1 := by
  have hres1 : (hyp_core_ctl_do_reservation online isolOk hcd).1.reserve_cpus
      = hcd.reserve_cpus := do_reservation_reserve online isolOk hcd
  have hiter2 : ∀ a : ℕ,
      a ∈ (hyp_core_ctl_do_reservation online isolOk hcd).1.reserve_cpus
            \ (hyp_core_ctl_do_reservation online isolOk hcd).1.our_isolated_cpus
        → online a = false := by
    intro a ha
    rw [hres1, do_reservation_isolated] at ha
    rcases Finset.mem_sdiff.1 ha with ⟨har, hnot⟩
    by_cases honla : online a
    · exfalso
      apply hnot
      refine Finset.mem_union_right _ (Finset.mem_filter.2 ⟨?_, by simp [honla, hok]⟩)
      refine Finset.mem_sdiff.2 ⟨har, fun hai => hnot (Finset.mem_union_left _ hai)⟩
    · exact Bool.not_eq_true _ ▸ Bool.of_not_eq_true honla
  have hcalls : (hyp_core_ctl_do_reservation online isolOk
      (hyp_core_ctl_do_reservation online isolOk hcd).1).2 = [] := by
    rw [do_reservation_calls, List.map_eq_nil_iff]
    rw [List.filter_eq_nil_iff]
    intro a ha
    have hmem := (mem_ascList _ a).1 ha
    simp [hiter2 a hmem]
  have hiso2 : (hyp_core_ctl_do_reservation online isolOk
        (hyp_core_ctl_do_reservation online isolOk hcd).1).1.our_isolated_cpus
      = (hyp_core_ctl_do_reservation online isolOk hcd).1.our_isolated_cpus := by
    rw [do_reservation_isolated]
    have hempty : ((hyp_core_ctl_do_reservation online isolOk hcd).1.reserve_cpus
          \ (hyp_core_ctl_do_reservation online isolOk
              hcd).1.our_isolated_cpus).filter
            (fun c => online c && isolOk c) = ∅ := by
      rw [Finset.filter_eq_empty_iff]
      intro a ha
      simp [hiter2 a ha]
    rw [hempty, Finset.union_empty]
  refine ⟨hcalls, eq_of_fields ?_ ?_ ?_ hiso2 ?_⟩
  · exact do_reservation_pending _ _ _
  · exact do_reservation_enabled _ _ _
  · exact do_reservation_reserve _ _ _
  · rw [do_reservation_final_reserve, hiso2, hres1,
      do_reservation_final_reserve]

/-- Witness for C6 (amended): `reserve_cpus = {2, 3}`, every CPU online,
every isolate call succeeding. -/
theorem c6_idempotent_after_success_witness :
    (hyp_core_ctl_do_reservation (fun _ => true) (fun _ => true)
        (hyp_core_ctl_do_reservation (fun _ => true) (fun _ => true)
          exampleHcd).1).2 = [] ∧
    (hyp_core_ctl_do_reservation (fun _ => true) (fun _ => true)
        (hyp_core_ctl_do_reservation (fun _ => true) (fun _ => true)
          exampleHcd).1).1
      = (hyp_core_ctl_do_reservation (fun _ => true) (fun _ => true)
          exampleHcd).1 :=
  c6_idempotent_after_success (fun _ => true) (fun _ => true) exampleHcd
    (fun _ => rfl)

end HypCoreCtl
